import Mathlib

/-!
Verification development for the radium-textures-gpu core: the MO2-style
virtual file system (src/mo2/vfs.rs, src/mo2/profile.rs), the texture
discovery / catalog builder (src/database/discovery.rs,
src/database/texture_record.rs) and the DDS header parser
(src/dds/parser.rs), shallowly embedded in Lean.

Strings are modelled as lists of characters (`Str`).  Rust's
`str::to_lowercase` is modelled by mapping `Char.toLower` (the two agree on
the ASCII range, which covers every constant the program compares against);
Unicode NFC normalisation (`unicode_normalization::nfc`) is the identity on
the modelled alphabet, which contains no combining sequences.  `HashMap` is
modelled as an association list together with a no-duplicate-keys
invariant; `HashMap::insert` replaces the existing entry for the key,
`entry().and_modify().or_insert()` is `mapUpsert`, and `get_mut` is
`mapModify`.
-/

set_option maxRecDepth 8192

namespace Radium

/-- Paths and strings, modelled as lists of characters. -/
abbrev Str := List Char

/-- Rust `str::to_lowercase`, restricted to the modelled (ASCII) alphabet. -/
def strToLower (s : Str) : Str := s.map Char.toLower

/-- Unicode NFC canonical composition (`.nfc()` from unicode_normalization).
On the modelled alphabet, which has no combining characters or
composition-variant sequences, NFC is the identity. -/
def nfc (s : Str) : Str := s

/-- Rust `str::replace('\\', "/")`. -/
def replaceBackslash (s : Str) : Str := s.map (fun c => if c = '\\' then '/' else c)

/-- Rust `str::ends_with`. -/
def strEndsWith (s m : Str) : Bool := m.isSuffixOf s

/-- Rust `str::starts_with`. -/
def strStartsWith (s m : Str) : Bool := m.isPrefixOf s

/-- Rust `str::trim` (whitespace stripped from both ends). -/
def strTrim (s : Str) : Str :=
  ((s.dropWhile Char.isWhitespace).reverse.dropWhile Char.isWhitespace).reverse

/-- Rust `str::strip_suffix`: removes `m` from the end of `s` when present. -/
def stripSuffixStr (s m : Str) : Option Str :=
  if m.isSuffixOf s then some (s.take (s.length - m.length)) else none

/-- Rust `Path::join`, on the modelled flat path strings. -/
def pathJoin (root rel : Str) : Str := root ++ '/' :: rel

/-- Lookup in the association-list model of `HashMap` (`HashMap::get`). -/
def mapLookup {β : Type} (m : List (Str × β)) (k : Str) : Option β :=
  match m with
  | [] => none
  | kv :: t => if kv.1 = k then some kv.2 else mapLookup t k

/-- Key-presence test (`HashMap::contains_key`). -/
def mapContains {β : Type} (m : List (Str × β)) (k : Str) : Bool :=
  (mapLookup m k).isSome

/-- Insert-or-overwrite (`HashMap::insert`): replaces the first entry for the
key, appends a fresh entry otherwise. -/
def mapInsert {β : Type} (m : List (Str × β)) (k : Str) (v : β) : List (Str × β) :=
  match m with
  | [] => [(k, v)]
  | kv :: t => if kv.1 = k then (kv.1, v) :: t else kv :: mapInsert t k v

/-- In-place update of the entry for a key (`HashMap::get_mut` followed by a
mutation); a no-op when the key is absent. -/
def mapModify {β : Type} (m : List (Str × β)) (k : Str) (f : β → β) : List (Str × β) :=
  match m with
  | [] => []
  | kv :: t => if kv.1 = k then (kv.1, f kv.2) :: t else kv :: mapModify t k f

/-- Rust `HashMap::entry(k).and_modify(f).or_insert(dflt)`. -/
def mapUpsert {β : Type} (m : List (Str × β)) (k : Str) (f : β → β) (dflt : β) :
    List (Str × β) :=
  if mapContains m k then mapModify m k f else mapInsert m k dflt

/-- Number of entries stored under a key; a real `HashMap` keeps at most one,
which the association-list model tracks through this count. -/
def countKey {β : Type} (m : List (Str × β)) (k : Str) : Nat :=
  match m with
  | [] => 0
  | kv :: t => (if kv.1 = k then 1 else 0) + countKey t k

/-! DDS header parser, from src/dds/parser.rs.  A buffer of bytes is a
`List Nat` (each element a byte value).  `parse_dds_header` reads at most
148 bytes of the stream into a zero-initialised 148-byte buffer, so the
effective buffer is the input truncated to 148 bytes and padded with
zeros (`headerBuffer`).  The format label is modelled by `FormatLabel`;
the two diagnostic labels keep the raw numeric tag or code that the Rust
code renders into the strings FourCC_&lt;tag&gt; and DXGI_&lt;code&gt;. -/

/-- Result of format detection in parse_dds_header / parse_dx10_format.
`fourCC tag` stands for the diagnostic string embedding the raw
four-character tag, `dxgi code` for the diagnostic string embedding the raw
numeric DXGI code, `unknown` for the "UNKNOWN" label returned on a short
DX10 slice. -/
inductive FormatLabel where
  | BC1
  | BC2
  | BC3
  | BC4
  | BC5
  | BC6H
  | BC7
  | uncompressed
  | unknown
  | fourCC (tag : Nat)
  | dxgi (code : Nat)
deriving DecidableEq, Repr

/-- DDS header data extracted by the parser (struct DDSHeader). -/
structure DDSHeader where
  width : Nat
  height : Nat
  format : FormatLabel
deriving DecidableEq, Repr

/-- The two structural failure classes of parse_dds_header: the too-small
bail and the bad-magic bail (the code raises them through anyhow). -/
inductive DdsError where
  | tooSmall (got : Nat)
  | formatError (magic : Nat)
deriving DecidableEq, Repr

/-- Magic constant "DDS " (const DDS_MAGIC). -/
def DDS_MAGIC : Nat := 0x20534444

/-- Pixel-format flag bit marking a tagged (FourCC) codec (const DDPF_FOURCC). -/
def DDPF_FOURCC : Nat := 0x00000004

def FOURCC_DXT1 : Nat := 0x31545844

def FOURCC_DXT2 : Nat := 0x32545844

def FOURCC_DXT3 : Nat := 0x33545844

def FOURCC_DXT4 : Nat := 0x34545844

def FOURCC_DXT5 : Nat := 0x35545844

def FOURCC_DX10 : Nat := 0x30315844

def FOURCC_BC4U : Nat := 0x55344342

def FOURCC_BC4S : Nat := 0x53344342

def FOURCC_BC5U : Nat := 0x55354342

def FOURCC_BC5S : Nat := 0x53354342

def FOURCC_ATI1 : Nat := 0x31495441

def FOURCC_ATI2 : Nat := 0x32495441

/-- Byte access with the zero default of the pre-initialised buffer. -/
def byteAt (buf : List Nat) (i : Nat) : Nat := buf.getD i 0

/-- Little-endian 32-bit read at a byte offset (read_u32 LittleEndian). -/
def readLE32 (buf : List Nat) (off : Nat) : Nat :=
  byteAt buf off + 256 * byteAt buf (off + 1) + 65536 * byteAt buf (off + 2) +
    16777216 * byteAt buf (off + 3)

/-- The 148-byte zero-initialised read buffer after stream.read: the input
truncated to 148 bytes, padded with zeros up to length 148. -/
def headerBuffer (input : List Nat) : List Nat :=
  input.take 148 ++ List.replicate (148 - input.length) 0

/-- Parse the DX10 extended header (fn parse_dx10_format).  The Rust
function returns Result but can only return Ok: a slice shorter than 4
bytes yields the "UNKNOWN" label and a longer slice is read successfully,
so the model returns the label directly. -/
def parse_dx10_format (dx10_header : List Nat) : FormatLabel :=
  if dx10_header.length < 4 then .unknown
  else
    let dxgi_format := readLE32 dx10_header 0
    if dxgi_format = 71 ∨ dxgi_format = 72 then .BC1
    else if dxgi_format = 74 ∨ dxgi_format = 75 then .BC2
    else if dxgi_format = 77 ∨ dxgi_format = 78 then .BC3
    else if dxgi_format = 80 ∨ dxgi_format = 81 then .BC4
    else if dxgi_format = 83 ∨ dxgi_format = 84 then .BC5
    else if dxgi_format = 95 ∨ dxgi_format = 96 then .BC6H
    else if dxgi_format = 98 ∨ dxgi_format = 99 then .BC7
    else .dxgi dxgi_format

/-- The Rust test (pixel_format_flags & DDPF_FOURCC) != 0 of the flag bit
of value 4, written through division so that it evaluates by kernel
arithmetic; the equivalence with the bitwise-and form is proved in
`fourccFlagSet_eq_land`. -/
def fourccFlagSet (flags : Nat) : Bool := flags / 4 % 2 = 1

/-- Format detection of parse_dds_header: the pixel-format flag word at
offset 80, the FourCC tag at offset 84, and for the DX10 sentinel the
extended header slice starting at offset 128. -/
def ddsFormatOf (buf : List Nat) : FormatLabel :=
  let pixel_format_flags := readLE32 buf 80
  let fourcc := readLE32 buf 84
  if fourccFlagSet pixel_format_flags then
    if fourcc = FOURCC_DXT1 then .BC1
    else if fourcc = FOURCC_DXT2 ∨ fourcc = FOURCC_DXT3 then .BC2
    else if fourcc = FOURCC_DXT4 ∨ fourcc = FOURCC_DXT5 then .BC3
    else if fourcc = FOURCC_BC4U ∨ fourcc = FOURCC_BC4S ∨ fourcc = FOURCC_ATI1 then .BC4
    else if fourcc = FOURCC_BC5U ∨ fourcc = FOURCC_BC5S ∨ fourcc = FOURCC_ATI2 then .BC5
    else if fourcc = FOURCC_DX10 then parse_dx10_format (buf.drop 128)
    else .fourCC fourcc
  else .uncompressed

/-- Parse a DDS header from a byte stream (fn parse_dds_header).  The
stream is read into a zero-filled 148-byte buffer; fewer than 128 bytes
read is the too-small bail, a wrong 4-byte magic the format-error bail;
height is read at offset 12 and width at offset 16, both little-endian. -/
def parse_dds_header (input : List Nat) : Except DdsError DDSHeader :=
  let bytes_read := min input.length 148
  if bytes_read < 128 then .error (.tooSmall bytes_read)
  else
    let buf := headerBuffer input
    let magic := readLE32 buf 0
    if magic ≠ DDS_MAGIC then .error (.formatError magic)
    else
      .ok { width := readLE32 buf 16, height := readLE32 buf 12, format := ddsFormatOf buf }

/-! MO2 profile parsing, from src/mo2/profile.rs. -/

/-- State of a mod in the modlist (enum ModState). -/
inductive ModState where
  | enabled
  | disabled
deriving DecidableEq, Repr

/-- A parsed modlist entry (struct Mod).  The on-disk path mods_dir.join(name)
is determined by the name, so the model keeps name, priority and state. -/
structure ModEntry where
  name : Str
  priority : Nat
  state : ModState
deriving DecidableEq, Repr

/-- Loop body of Profile::parse_modlist: the running priority counter starts
at 0; a line is trimmed, an empty line is skipped, a line tagged with a
plus sign yields an enabled entry, one tagged with a minus sign or an
asterisk a disabled entry — in either case the counter advances — and any
other line is logged as invalid and skipped without advancing the counter. -/
def parse_modlist_go (priority : Nat) (lines : List Str) : List ModEntry :=
  match lines with
  | [] => []
  | line :: rest =>
    match strTrim line with
    | [] => parse_modlist_go priority rest
    | c :: name =>
      if c = '+' then ⟨name, priority, .enabled⟩ :: parse_modlist_go (priority + 1) rest
      else if c = '-' ∨ c = '*' then
        ⟨name, priority, .disabled⟩ :: parse_modlist_go (priority + 1) rest
      else parse_modlist_go priority rest

/-- Profile::parse_modlist over the lines of modlist.txt. -/
def parse_modlist (lines : List Str) : List ModEntry := parse_modlist_go 0 lines

/-- Tag classification of a single trimmed modlist line: the state and name
for a well-formed tagged line, none for a blank or malformed line. -/
def tagOf (line : Str) : Option (ModState × Str) :=
  match strTrim line with
  | [] => none
  | c :: name =>
    if c = '+' then some (.enabled, name)
    else if c = '-' ∨ c = '*' then some (.disabled, name)
    else none

/-- Modelled from the spec: rank assignment reformulated in the spec's
words — every tagged line, regardless of tag, consumes one rank slot in
file order starting at 0, while blank and malformed lines consume none.
Used as the comparison point for the amended claim C8. -/
def parse_modlist_spec (lines : List Str) : List ModEntry :=
  (lines.filterMap tagOf).enum.map (fun p => ⟨p.2.2, p.1, p.2.1⟩)

/-- Profile::enabled_mods: the enabled entries in list (ascending priority)
order. -/
def enabled_mods (mods : List ModEntry) : List ModEntry :=
  mods.filter (fun m => m.state == ModState.enabled)

/-! Texture records and classification, from src/database/texture_record.rs
and src/database/discovery.rs. -/

/-- A catalog record (struct TextureRecord).  The format label uses the
parser's `FormatLabel`. -/
structure TextureRecord where
  internal_path : Str
  actual_path : Str
  source : Str
  file_size : Nat
  width : Option Nat
  height : Option Nat
  format : Option FormatLabel
  texture_type : Option Str
  conflict_count : Nat
deriving DecidableEq, Repr

/-- TextureRecord::from_loose_file. -/
def TextureRecord.from_loose_file (internal_path file_path : Str) (file_size : Nat) :
    TextureRecord :=
  { internal_path := internal_path, actual_path := file_path, source := "loose".toList,
    file_size := file_size, width := none, height := none, format := none,
    texture_type := none, conflict_count := 0 }

/-- TextureRecord::from_bsa_file. -/
def TextureRecord.from_bsa_file (internal_path bsa_path bsa_name : Str) (file_size : Nat) :
    TextureRecord :=
  { internal_path := internal_path, actual_path := bsa_path, source := bsa_name,
    file_size := file_size, width := none, height := none, format := none,
    texture_type := none, conflict_count := 0 }

/-- TextureDiscoveryService::classify_texture: lower-case the path, strip
the .dds extension (returning none when it is absent), then test the fixed
chain of suffix markers in source order. -/
def classify_texture (path : Str) : Option Str :=
  let lower := strToLower path
  match stripSuffixStr lower ".dds".toList with
  | none => none
  | some without_ext =>
    if strEndsWith without_ext "_n".toList then some "Normal".toList
    else if strEndsWith without_ext "_s".toList then some "Specular".toList
    else if strEndsWith without_ext "_m".toList then some "Parallax".toList
    else if strEndsWith without_ext "_sk".toList then some "Subsurface".toList
    else if strEndsWith without_ext "_msn".toList then some "Multi-layer".toList
    else if strEndsWith without_ext "_e".toList || strEndsWith without_ext "_g".toList then
      some "Emissive".toList
    else if strEndsWith without_ext "_em".toList then some "Emissive Mask".toList
    else if strEndsWith without_ext "_envmap".toList || strEndsWith without_ext "_env".toList then
      some "Environment".toList
    else some "Diffuse".toList

/-- The fixed suffix markers of classify_texture with their category
labels, for stating the claim about suffix precedence. -/
def suffixMarkers : List (Str × Str) :=
  [("_n".toList, "Normal".toList), ("_s".toList, "Specular".toList),
   ("_m".toList, "Parallax".toList), ("_sk".toList, "Subsurface".toList),
   ("_msn".toList, "Multi-layer".toList), ("_e".toList, "Emissive".toList),
   ("_g".toList, "Emissive".toList), ("_em".toList, "Emissive Mask".toList),
   ("_envmap".toList, "Environment".toList), ("_env".toList, "Environment".toList)]

/-! Virtual file system, from src/mo2/vfs.rs.  A directory walk is
modelled as the list of file paths relative to the walked root, in walk
order; the filesystem contents of the game data directory and of each
mod directory are therefore explicit inputs of the build. -/

/-- Source of a file in the virtual file system (enum FileSource). -/
inductive FileSource where
  | vanilla (path : Str)
  | mod (mod_name : Str) (mod_priority : Nat) (file_path : Str)
  | bsa (archive_name : Str) (internal_path : Str) (archive_path : Str)
deriving DecidableEq, Repr

/-- FileSource::priority: higher wins conflicts; vanilla and BSA sources
report 0. -/
def FileSource.priority : FileSource → Nat
  | .vanilla _ => 0
  | .mod _ p _ => p
  | .bsa _ _ _ => 0

/-- FileSource::physical_path: the on-disk path, none for a BSA source. -/
def FileSource.physical_path : FileSource → Option Str
  | .vanilla p => some p
  | .mod _ _ p => some p
  | .bsa _ _ _ => none

/-- Whether a source is a mod (overlay) source. -/
def FileSource.isMod : FileSource → Bool
  | .mod _ _ _ => true
  | _ => false

/-- VirtualFileSystem::normalize_path: lower-case, Unicode NFC, then
backslashes replaced by forward slashes. -/
def normalize_path (p : Str) : Str := replaceBackslash (nfc (strToLower p))

/-- The ad hoc key computation inside VirtualFileSystem::get_file:
lower-case and NFC only — no separator replacement. -/
def get_file_key (p : Str) : Str := nfc (strToLower p)

/-- A mod as consumed by the VFS build: its modlist identity plus its
directory root. -/
structure ModInfo where
  name : Str
  path : Str
  priority : Nat
deriving DecidableEq, Repr

/-- VirtualFileSystem::index_vanilla_files: every walked file of the game
data directory is inserted under its normalized relative path. -/
def index_vanilla_files (data_dir : Str) (walk : List Str)
    (m : List (Str × FileSource)) : List (Str × FileSource) :=
  walk.foldl
    (fun acc rel => mapInsert acc (normalize_path rel) (.vanilla (pathJoin data_dir rel))) m

/-- Loop body of VirtualFileSystem::index_mod_files for one walked file:
entry(key).and_modify(replace when strictly higher priority).or_insert. -/
def indexModStep (mi : ModInfo) (acc : List (Str × FileSource)) (rel : Str) :
    List (Str × FileSource) :=
  let key := normalize_path rel
  let src : FileSource := .mod mi.name mi.priority (pathJoin mi.path rel)
  mapUpsert acc key
    (fun existing => if mi.priority > existing.priority then src else existing) src

/-- VirtualFileSystem::index_mod_files over a mod's walked files. -/
def index_mod_files (mi : ModInfo) (walk : List Str) (m : List (Str × FileSource)) :
    List (Str × FileSource) :=
  walk.foldl (indexModStep mi) m

/-- VirtualFileSystem::build_file_map: vanilla files first, then every
enabled mod in ascending modlist order. -/
def build_file_map (data_dir : Str) (vanilla_walk : List Str)
    (mods : List (ModInfo × List Str)) : List (Str × FileSource) :=
  mods.foldl (fun acc mw => index_mod_files mw.1 mw.2 acc)
    (index_vanilla_files data_dir vanilla_walk [])

/-- VirtualFileSystem::get_file: looks the virtual path up under the ad hoc
lower-case-and-NFC key. -/
def get_file (m : List (Str × FileSource)) (virtual_path : Str) : Option FileSource :=
  mapLookup m (get_file_key virtual_path)

/-- The texture predicate of VirtualFileSystem::get_texture_files: .dds
suffix and the "textures/" root prefix, slash included. -/
def vfsTexPred (p : Str) : Bool :=
  strEndsWith p ".dds".toList && strStartsWith p "textures/".toList

/-- VirtualFileSystem::get_texture_files: the entries whose key satisfies
the loose-file texture predicate. -/
def get_texture_files (m : List (Str × FileSource)) : List (Str × FileSource) :=
  m.filter (fun kv => vfsTexPred kv.1)

/-! Texture discovery, from src/database/discovery.rs.  The BSA container
decoder (ba2) and the LZ4 codec are the external collaborator boundary of
spec section 4.4; their outcomes for each archive entry are oracle fields
of the entry model: `primary` is the result of file.decompress (none for
a decompression error) and `lz4` the result of try_lz4_decompress over the
still-compressed raw bytes. -/

/-- One file entry inside an opened BSA archive. -/
structure BsaEntryModel where
  dir_name : Str
  file_name : Str
  is_decompressed : Bool
  raw_bytes : List Nat
  primary : Option (List Nat)
  lz4 : Option (List Nat)
deriving DecidableEq, Repr

/-- One archive of the bsa_paths list: its path triple from
Profile::get_plugin_bsas, whether the path exists on disk, the file name
the path reports, and the decoder's outcome (none when
ba2::tes4::Archive::read fails). -/
structure BsaModel where
  path : Str
  file_name : Str
  mod_name : Str
  priority : Nat
  path_exists : Bool
  open_result : Option (List BsaEntryModel)
deriving DecidableEq, Repr

/-- The tallies kept by discover_from_bsas. -/
structure BsaCounters where
  bsa_count : Nat
  texture_count : Nat
  headers_parsed : Nat
  parse_failed : Nat
  too_small : Nat
  decompress_failed : Nat
deriving DecidableEq, Repr

/-- All counters zero, the state at the start of discover_from_bsas. -/
def BsaCounters.init : BsaCounters :=
  { bsa_count := 0, texture_count := 0, headers_parsed := 0, parse_failed := 0,
    too_small := 0, decompress_failed := 0 }

/-- Full internal path of an entry: directory and file name joined with a
forward slash, the file name alone for an empty directory. -/
def bsaFullPath (e : BsaEntryModel) : Str :=
  if e.dir_name = [] then e.file_name else e.dir_name ++ '/' :: e.file_name

/-- Key normalisation used in the archive phase: backslashes replaced,
then lower-cased. -/
def bsaNormalize (p : Str) : Str := strToLower (replaceBackslash p)

/-- The texture predicate of the archive phase: .dds suffix and the bare
"textures" prefix — no trailing slash required. -/
def bsaTexPred (p : Str) : Bool :=
  strEndsWith p ".dds".toList && strStartsWith p "textures".toList

/-- The shared parse step of the archive phase over already-obtained final
bytes: fewer than 128 bytes tallies too_small, a successful header parse
fills width, height and format and tallies headers_parsed, a parse error
tallies parse_failed. -/
def applyHeaderParse (bytes : List Nat) (record : TextureRecord) (c : BsaCounters) :
    TextureRecord × BsaCounters :=
  if bytes.length < 128 then (record, { c with too_small := c.too_small + 1 })
  else
    match parse_dds_header bytes with
    | .ok header =>
      ({ record with
          width := some header.width
          height := some header.height
          format := some header.format },
       { c with headers_parsed := c.headers_parsed + 1 })
    | .error _ => (record, { c with parse_failed := c.parse_failed + 1 })

/-- The final-bytes policy of the archive phase: raw bytes when the entry
is already decompressed, otherwise the primary (ba2) decompression,
otherwise LZ4 over the still-compressed raw bytes, otherwise the
decompress_failed tally with the record left without metadata. -/
def obtainAndParse (e : BsaEntryModel) (record : TextureRecord) (c : BsaCounters) :
    TextureRecord × BsaCounters :=
  if e.is_decompressed then applyHeaderParse e.raw_bytes record c
  else
    match e.primary with
    | some bytes => applyHeaderParse bytes record c
    | none =>
      match e.lz4 with
      | some lz4_data => applyHeaderParse lz4_data record c
      | none => (record, { c with decompress_failed := c.decompress_failed + 1 })

/-- Per-entry body of discover_from_bsas: filter by the archive texture
predicate; a key already in the catalog only has its conflict_count
incremented; a new key is inserted as an archive-origin record, classified,
and enriched through the final-bytes policy. -/
def processBsaEntry (bsa : BsaModel) (st : List (Str × TextureRecord) × BsaCounters)
    (e : BsaEntryModel) : List (Str × TextureRecord) × BsaCounters :=
  let normalized_path := bsaNormalize (bsaFullPath e)
  if ¬ (bsaTexPred normalized_path = true) then st
  else if mapContains st.1 normalized_path then
    (mapModify st.1 normalized_path
      (fun r => { r with conflict_count := r.conflict_count + 1 }), st.2)
  else
    let record0 :=
      TextureRecord.from_bsa_file normalized_path bsa.path bsa.file_name e.raw_bytes.length
    let record1 := { record0 with texture_type := classify_texture normalized_path }
    let stepped := obtainAndParse e record1
      { st.2 with texture_count := st.2.texture_count + 1 }
    (mapInsert st.1 normalized_path stepped.1, stepped.2)

/-- Per-archive body of discover_from_bsas: a missing path is skipped, a
decoder failure is logged and skipped, an opened archive counts towards
bsa_count and has all its entries processed in order. -/
def processBsa (st : List (Str × TextureRecord) × BsaCounters) (bsa : BsaModel) :
    List (Str × TextureRecord) × BsaCounters :=
  if ¬ (bsa.path_exists = true) then st
  else
    match bsa.open_result with
    | none => st
    | some entries =>
      entries.foldl (processBsaEntry bsa) (st.1, { st.2 with bsa_count := st.2.bsa_count + 1 })

/-- TextureDiscoveryService::discover_from_bsas: the archive list is
iterated in reverse of its given order, each archive folded by
processBsa over the catalog built so far. -/
def discover_from_bsas (bsa_paths : List BsaModel) (textures : List (Str × TextureRecord)) :
    List (Str × TextureRecord) × BsaCounters :=
  bsa_paths.reverse.foldl processBsa (textures, BsaCounters.init)

/-- Per-entry body of discover_from_vfs: a source with a physical path
whose stat succeeds (the stat oracle models fs::metadata on the walked
file) is recorded as a loose file and classified. -/
def vfsDiscoverStep (stat : Str → Option Nat) (acc : List (Str × TextureRecord))
    (kv : Str × FileSource) : List (Str × TextureRecord) :=
  match kv.2.physical_path with
  | none => acc
  | some file_path =>
    match stat file_path with
    | none => acc
    | some file_size =>
      let record := { TextureRecord.from_loose_file kv.1 file_path file_size with
        texture_type := classify_texture kv.1 }
      mapInsert acc kv.1 record

/-- TextureDiscoveryService::discover_from_vfs: fold the loose-phase step
over the VFS texture subset. -/
def discover_from_vfs (m : List (Str × FileSource)) (stat : Str → Option Nat) :
    List (Str × TextureRecord) :=
  (get_texture_files m).foldl (vfsDiscoverStep stat) []

/-- Number of entries of one archive that resolve to key `k` in the
archive phase: entries passing the archive texture predicate whose
normalised full path equals `k`; zero for a missing or unopenable archive. -/
def archMatchCount (bsa : BsaModel) (k : Str) : Nat :=
  if ¬ (bsa.path_exists = true) then 0
  else
    match bsa.open_result with
    | none => 0
    | some entries =>
      (entries.filter (fun e =>
        bsaTexPred (bsaNormalize (bsaFullPath e)) && bsaNormalize (bsaFullPath e) == k)).length

/-- Total number of archive entries resolving to key `k` over a bsa_paths
list. -/
def totalMatchCount (bsa_paths : List BsaModel) (k : Str) : Nat :=
  (bsa_paths.map (fun b => archMatchCount b k)).sum

/-- Concrete DDS byte buffer: correct magic, height 512 at offset 12,
width 1024 at offset 16, the FourCC flag set at offset 80, the "DX10"
extended-format sentinel at offset 84, and extended code 98 at offset 128. -/
def dx10Bc7Buffer : List Nat :=
  [0x44, 0x44, 0x53, 0x20, 124, 0, 0, 0, 0, 0, 0, 0, 0, 2, 0, 0, 0, 4, 0, 0] ++
  List.replicate 56 0 ++ [32, 0, 0, 0, 4, 0, 0, 0, 0x44, 0x58, 0x31, 0x30] ++
  List.replicate 40 0 ++ [98, 0, 0, 0] ++ List.replicate 16 0

/-- A concrete archive holding one texture entry under a directory whose
name merely begins with "textures". -/
def textures2Archive : BsaModel :=
  { path := "t2.bsa".toList
    file_name := "t2.bsa".toList
    mod_name := "t2".toList
    priority := 0
    path_exists := true
    open_result := some [{ dir_name := "textures2".toList
                           file_name := "foo.dds".toList
                           is_decompressed := true
                           raw_bytes := []
                           primary := none
                           lz4 := none }] }


/-- A loose-file record for the claim about archive-phase immutability. -/
def looseRecordA : TextureRecord :=
  { TextureRecord.from_loose_file "textures/a.dds".toList
      "mods/m/textures/a.dds".toList 100 with
    texture_type := classify_texture "textures/a.dds".toList }

/-- A catalog holding the loose record alone, as after the loose phase. -/
def looseCatalogA : List (Str × TextureRecord) := [("textures/a.dds".toList, looseRecordA)]

/-- An archive providing the same key as the loose record. -/
def conflictingArchive : BsaModel :=
  { path := "c.bsa".toList
    file_name := "c.bsa".toList
    mod_name := "c".toList
    priority := 2
    path_exists := true
    open_result := some [{ dir_name := "textures".toList
                           file_name := "a.dds".toList
                           is_decompressed := true
                           raw_bytes := []
                           primary := none
                           lz4 := none }] }

/-- One archive entry under the key "textures/shared.dds". -/
def sharedEntry : BsaEntryModel :=
  { dir_name := "textures".toList
    file_name := "shared.dds".toList
    is_decompressed := true
    raw_bytes := []
    primary := none
    lz4 := none }

/-- Archive of rank 1 providing the shared key. -/
def archiveA : BsaModel :=
  { path := "a.bsa".toList
    file_name := "a.bsa".toList
    mod_name := "a".toList
    priority := 1
    path_exists := true
    open_result := some [sharedEntry] }

/-- Archive of rank 2 providing the shared key. -/
def archiveB : BsaModel :=
  { path := "b.bsa".toList
    file_name := "b.bsa".toList
    mod_name := "b".toList
    priority := 2
    path_exists := true
    open_result := some [sharedEntry] }

/-- Archive of rank 3 providing the shared key. -/
def archiveC : BsaModel :=
  { path := "c.bsa".toList
    file_name := "c.bsa".toList
    mod_name := "c".toList
    priority := 3
    path_exists := true
    open_result := some [sharedEntry] }


/-- Invariant of the VFS build at a key: any stored source is an overlay
(mod) source or has priority 0 — the vanilla layer's priority. -/
def modOrBase (k : Str) (m : List (Str × FileSource)) : Prop :=
  ∀ s, mapLookup m k = some s → s.isMod = true ∨ s.priority = 0

/-- The key is held by an overlay (mod) source. -/
def heldByMod (k : Str) (m : List (Str × FileSource)) : Prop :=
  ∃ s, mapLookup m k = some s ∧ s.isMod = true

/-! Helper lemmas about the association-list map model. -/

theorem mapLookup_mapInsert_self {β : Type} (m : List (Str × β)) (k : Str) (v : β) :
    mapLookup (mapInsert m k v) k = some v := by
  induction m with
  | nil => simp [mapInsert, mapLookup]
  | cons kv t ih =>
    by_cases h : kv.1 = k
    · simp [mapInsert, mapLookup, h]
    · simp [mapInsert, mapLookup, h, ih]

theorem mapLookup_mapInsert_other {β : Type} (m : List (Str × β)) (k k' : Str) (v : β)
    (h : k' ≠ k) : mapLookup (mapInsert m k' v) k = mapLookup m k := by
  induction m with
  | nil => simp [mapInsert, mapLookup, h]
  | cons kv t ih =>
    by_cases hkv : kv.1 = k'
    · simp [mapInsert, mapLookup, hkv, h]
    · simp only [mapInsert, hkv, if_false]
      by_cases hk : kv.1 = k
      · simp [mapLookup, hk]
      · simp [mapLookup, hk, ih]

theorem mapLookup_mapModify_self {β : Type} (m : List (Str × β)) (k : Str) (f : β → β) :
    mapLookup (mapModify m k f) k = (mapLookup m k).map f := by
  induction m with
  | nil => simp [mapModify, mapLookup]
  | cons kv t ih =>
    by_cases h : kv.1 = k
    · simp [mapModify, mapLookup, h]
    · simp [mapModify, mapLookup, h, ih]

theorem mapLookup_mapModify_other {β : Type} (m : List (Str × β)) (k k' : Str) (f : β → β)
    (h : k' ≠ k) : mapLookup (mapModify m k' f) k = mapLookup m k := by
  induction m with
  | nil => simp [mapModify, mapLookup]
  | cons kv t ih =>
    by_cases hkv : kv.1 = k'
    · have hne : kv.1 ≠ k := by rw [hkv]; exact h
      simp [mapModify, mapLookup, hkv, hne, h]
    · simp only [mapModify, if_neg hkv]
      by_cases hk : kv.1 = k
      · simp [mapLookup, hk]
      · simp [mapLookup, hk, ih]

theorem countKey_mapModify {β : Type} (m : List (Str × β)) (k k' : Str) (f : β → β) :
    countKey (mapModify m k' f) k = countKey m k := by
  induction m with
  | nil => simp [mapModify]
  | cons kv t ih =>
    by_cases hkv : kv.1 = k'
    · simp [mapModify, countKey, hkv]
    · simp [mapModify, countKey, hkv, ih]

theorem countKey_mapInsert_contains {β : Type} (m : List (Str × β)) (k : Str) (v : β)
    (h : mapContains m k = true) : countKey (mapInsert m k v) k = countKey m k := by
  induction m with
  | nil => simp [mapContains, mapLookup] at h
  | cons kv t ih =>
    by_cases hkv : kv.1 = k
    · simp [mapInsert, countKey, hkv]
    · simp only [mapContains, mapLookup, hkv, if_false] at h
      simp [mapInsert, countKey, hkv, ih h]

theorem countKey_mapInsert_absent {β : Type} (m : List (Str × β)) (k : Str) (v : β)
    (h : mapContains m k = false) : countKey (mapInsert m k v) k = countKey m k + 1 := by
  induction m with
  | nil => simp [mapInsert, countKey]
  | cons kv t ih =>
    by_cases hkv : kv.1 = k
    · simp [mapContains, mapLookup, hkv] at h
    · simp only [mapContains, mapLookup, hkv, if_false] at h
      simp only [mapInsert, hkv, if_false, countKey, ih h]
      omega

theorem countKey_mapInsert_other {β : Type} (m : List (Str × β)) (k k' : Str) (v : β)
    (h : k' ≠ k) : countKey (mapInsert m k' v) k = countKey m k := by
  induction m with
  | nil => simp [mapInsert, countKey, h]
  | cons kv t ih =>
    by_cases hkv : kv.1 = k'
    · simp [mapInsert, countKey, hkv, h]
    · simp [mapInsert, countKey, hkv, ih]

theorem mapContains_iff_countKey {β : Type} (m : List (Str × β)) (k : Str) :
    mapContains m k = true ↔ 1 ≤ countKey m k := by
  induction m with
  | nil => simp [mapContains, mapLookup, countKey]
  | cons kv t ih =>
    by_cases h : kv.1 = k
    · simp [mapContains, mapLookup, countKey, h]
    · simp only [mapContains, mapLookup, countKey, h, if_false] at ih ⊢
      rw [ih]
      omega

theorem countKey_zero_of_not_contains {β : Type} (m : List (Str × β)) (k : Str)
    (h : mapContains m k = false) : countKey m k = 0 := by
  have := (mapContains_iff_countKey m k)
  by_cases hc : 1 ≤ countKey m k
  · exact absurd (this.mpr hc) (by simp [h])
  · omega

theorem vfsDiscover_foldl_none (stat : Str → Option Nat) (k : Str)
    (l : List (Str × FileSource)) (acc : List (Str × TextureRecord))
    (hl : ∀ kv ∈ l, vfsTexPred kv.1 = true) (hk : vfsTexPred k = false)
    (hacc : mapLookup acc k = none) :
    mapLookup (l.foldl (vfsDiscoverStep stat) acc) k = none := by
  induction l generalizing acc with
  | nil => simpa using hacc
  | cons kv t ih =>
    have hkv : vfsTexPred kv.1 = true := hl kv (by simp)
    have hne : kv.1 ≠ k := by
      intro h; rw [h] at hkv; rw [hkv] at hk; cases hk
    have hstep : mapLookup (vfsDiscoverStep stat acc kv) k = none := by
      cases hp : kv.2.physical_path with
      | none => simpa [vfsDiscoverStep, hp] using hacc
      | some fp =>
        cases hs : stat fp with
        | none => simpa [vfsDiscoverStep, hp, hs] using hacc
        | some size =>
          simpa [vfsDiscoverStep, hp, hs, mapLookup_mapInsert_other _ _ _ _ hne] using hacc
    simpa using ih (vfsDiscoverStep stat acc kv) (fun kv h => hl kv (by simp [h])) hstep

theorem parse_modlist_go_eq (lines : List Str) : ∀ p, parse_modlist_go p lines =
    ((lines.filterMap tagOf).enumFrom p).map (fun q => ⟨q.2.2, q.1, q.2.1⟩) := by
  induction lines with
  | nil => intro p; rfl
  | cons line rest ih =>
    intro p
    simp only [parse_modlist_go, tagOf, List.filterMap_cons]
    cases ht : strTrim line with
    | nil => simpa using ih p
    | cons c name =>
      by_cases h1 : c = '+'
      · simp [h1, List.enumFrom_cons, ih (p + 1)]
      · by_cases h2 : c = '-' ∨ c = '*'
        · simp [h1, h2, List.enumFrom_cons, ih (p + 1)]
        · simp [h1, h2, ih p]

theorem strEndsWith_iff (s m : Str) : strEndsWith s m = true ↔ m <:+ s := by
  simp [strEndsWith]

theorem strEndsWith_false_of_incomparable (s m m' : Str) (h : strEndsWith s m = true)
    (h1 : strEndsWith m m' = false) (h2 : strEndsWith m' m = false) :
    strEndsWith s m' = false := by
  by_contra hc
  have hm : m <:+ s := (strEndsWith_iff s m).mp h
  have hm' : m' <:+ s := (strEndsWith_iff s m').mp (by revert hc; cases strEndsWith s m' <;> simp)
  rcases List.suffix_or_suffix_of_suffix hm hm' with hx | hx
  · exact absurd ((strEndsWith_iff m' m).mpr hx) (by simp [h2])
  · exact absurd ((strEndsWith_iff m m').mpr hx) (by simp [h1])

theorem fourccFlagSet_eq_land (f : Nat) :
    fourccFlagSet f = decide (f &&& DDPF_FOURCC ≠ 0) := by
  have h : f &&& DDPF_FOURCC = (f.testBit 2).toNat * 2 ^ 2 := by
    simpa [DDPF_FOURCC] using Nat.and_two_pow f 2
  have ht : f.testBit 2 = decide (f / 2 ^ 2 % 2 = 1) := Nat.testBit_to_div_mod
  simp only [fourccFlagSet]
  rw [h]
  cases htb : f.testBit 2 with
  | false =>
    rw [htb] at ht
    have hne : ¬ (f / 4 % 2 = 1) := by
      intro hc
      rw [show (2 : Nat) ^ 2 = 4 from rfl] at ht
      simp [hc] at ht
    simp [hne]
  | true =>
    rw [htb] at ht
    have heq : f / 4 % 2 = 1 := by
      rw [show (2 : Nat) ^ 2 = 4 from rfl] at ht
      exact of_decide_eq_true ht.symm
    simp [heq]

theorem headerBuffer_length (input : List Nat) : (headerBuffer input).length = 148 := by
  simp [headerBuffer]
  omega

/-! Claims. -/

/-- C8 counterexample: with a malformed line in the middle, the mod from
the third line receives rank 1, not its line position 2 — the rank counter
does not advance on malformed lines, so ranks are not assigned by line
position and do not increment for every line. -/
theorem c8_counterexample :
    parse_modlist ["+a".toList, "?b".toList, "+c".toList] =
      [⟨"a".toList, 0, .enabled⟩, ⟨"c".toList, 1, .enabled⟩]
    ∧ (⟨"c".toList, 2, ModState.enabled⟩ : ModEntry) ∉
        parse_modlist ["+a".toList, "?b".toList, "+c".toList] := by
  refine ⟨by decide, by decide⟩

/-- C8 amended: ranks 0, 1, 2, ... are assigned in order to the tagged
lines regardless of tag; disabled and separator lines consume a rank slot
but never appear among the enabled overlays; blank and malformed lines are
skipped without consuming a rank slot and without failing the load. -/
theorem c8_rank_assignment (lines : List Str) :
    parse_modlist lines = parse_modlist_spec lines
    ∧ ∀ m ∈ enabled_mods (parse_modlist lines), m.state = ModState.enabled := by
  constructor
  · show parse_modlist_go 0 lines = _
    rw [parse_modlist_go_eq]
    rfl
  · intro m hm
    have h := (List.mem_filter.mp hm).2
    simpa using h

/-- C8 witness: the amended statement at a concrete manifest with every
line kind. -/
theorem c8_rank_assignment_witness :
    parse_modlist ["+a".toList, "-b".toList, "*c".toList, "+d".toList] =
      parse_modlist_spec ["+a".toList, "-b".toList, "*c".toList, "+d".toList]
    ∧ (⟨"a".toList, 0, ModState.enabled⟩ : ModEntry).state = ModState.enabled :=
  ⟨(c8_rank_assignment ["+a".toList, "-b".toList, "*c".toList, "+d".toList]).1,
   (c8_rank_assignment ["+a".toList, "-b".toList, "*c".toList, "+d".toList]).2
     ⟨"a".toList, 0, ModState.enabled⟩ (by decide)⟩

/-- C9: classification of "foo_msn.dds" yields the multi-layer category,
and in general, whenever the extension-stripped name ends with one of the
fixed suffix markers, the returned category is that marker's category.
Since no marker is a suffix of another, at most one marker can match a
given name, and the matching marker is in particular the longest match —
no shorter marker shadows a longer one. -/
theorem c9_classify_suffix_precedence :
    classify_texture "foo_msn.dds".toList = some "Multi-layer".toList
    ∧ ∀ (path s m cat : Str), stripSuffixStr (strToLower path) ".dds".toList = some s →
        (m, cat) ∈ suffixMarkers → strEndsWith s m = true →
        classify_texture path = some cat := by
  refine ⟨by decide, ?_⟩
  intro path s m cat hstrip hm hends
  simp only [classify_texture]
  rw [hstrip]
  simp only [suffixMarkers, List.mem_cons, List.not_mem_nil, or_false,
    Prod.mk.injEq] at hm
  obtain hx | hx | hx | hx | hx | hx | hx | hx | hx | hx := hm
  · obtain ⟨rfl, rfl⟩ := hx
    simp at hends
    simp [hends]
  · obtain ⟨rfl, rfl⟩ := hx
    simp at hends
    have e1 := strEndsWith_false_of_incomparable s ['_', 's'] ['_', 'n'] hends (by decide) (by decide)
    simp [e1, hends]
  · obtain ⟨rfl, rfl⟩ := hx
    simp at hends
    have e1 := strEndsWith_false_of_incomparable s ['_', 'm'] ['_', 'n'] hends (by decide) (by decide)
    have e2 := strEndsWith_false_of_incomparable s ['_', 'm'] ['_', 's'] hends (by decide) (by decide)
    simp [e1, e2, hends]
  · obtain ⟨rfl, rfl⟩ := hx
    simp at hends
    have e1 := strEndsWith_false_of_incomparable s ['_', 's', 'k'] ['_', 'n'] hends (by decide) (by decide)
    have e2 := strEndsWith_false_of_incomparable s ['_', 's', 'k'] ['_', 's'] hends (by decide) (by decide)
    have e3 := strEndsWith_false_of_incomparable s ['_', 's', 'k'] ['_', 'm'] hends (by decide) (by decide)
    simp [e1, e2, e3, hends]
  · obtain ⟨rfl, rfl⟩ := hx
    simp at hends
    have e1 := strEndsWith_false_of_incomparable s ['_', 'm', 's', 'n'] ['_', 'n'] hends (by decide) (by decide)
    have e2 := strEndsWith_false_of_incomparable s ['_', 'm', 's', 'n'] ['_', 's'] hends (by decide) (by decide)
    have e3 := strEndsWith_false_of_incomparable s ['_', 'm', 's', 'n'] ['_', 'm'] hends (by decide) (by decide)
    have e4 := strEndsWith_false_of_incomparable s ['_', 'm', 's', 'n'] ['_', 's', 'k'] hends (by decide) (by decide)
    simp [e1, e2, e3, e4, hends]
  · obtain ⟨rfl, rfl⟩ := hx
    simp at hends
    have e1 := strEndsWith_false_of_incomparable s ['_', 'e'] ['_', 'n'] hends (by decide) (by decide)
    have e2 := strEndsWith_false_of_incomparable s ['_', 'e'] ['_', 's'] hends (by decide) (by decide)
    have e3 := strEndsWith_false_of_incomparable s ['_', 'e'] ['_', 'm'] hends (by decide) (by decide)
    have e4 := strEndsWith_false_of_incomparable s ['_', 'e'] ['_', 's', 'k'] hends (by decide) (by decide)
    have e5 := strEndsWith_false_of_incomparable s ['_', 'e'] ['_', 'm', 's', 'n'] hends (by decide) (by decide)
    simp [e1, e2, e3, e4, e5, hends]
  · obtain ⟨rfl, rfl⟩ := hx
    simp at hends
    have e1 := strEndsWith_false_of_incomparable s ['_', 'g'] ['_', 'n'] hends (by decide) (by decide)
    have e2 := strEndsWith_false_of_incomparable s ['_', 'g'] ['_', 's'] hends (by decide) (by decide)
    have e3 := strEndsWith_false_of_incomparable s ['_', 'g'] ['_', 'm'] hends (by decide) (by decide)
    have e4 := strEndsWith_false_of_incomparable s ['_', 'g'] ['_', 's', 'k'] hends (by decide) (by decide)
    have e5 := strEndsWith_false_of_incomparable s ['_', 'g'] ['_', 'm', 's', 'n'] hends (by decide) (by decide)
    simp [e1, e2, e3, e4, e5, hends]
  · obtain ⟨rfl, rfl⟩ := hx
    simp at hends
    have e1 := strEndsWith_false_of_incomparable s ['_', 'e', 'm'] ['_', 'n'] hends (by decide) (by decide)
    have e2 := strEndsWith_false_of_incomparable s ['_', 'e', 'm'] ['_', 's'] hends (by decide) (by decide)
    have e3 := strEndsWith_false_of_incomparable s ['_', 'e', 'm'] ['_', 'm'] hends (by decide) (by decide)
    have e4 := strEndsWith_false_of_incomparable s ['_', 'e', 'm'] ['_', 's', 'k'] hends (by decide) (by decide)
    have e5 := strEndsWith_false_of_incomparable s ['_', 'e', 'm'] ['_', 'm', 's', 'n'] hends (by decide) (by decide)
    have e6 := strEndsWith_false_of_incomparable s ['_', 'e', 'm'] ['_', 'e'] hends (by decide) (by decide)
    have e7 := strEndsWith_false_of_incomparable s ['_', 'e', 'm'] ['_', 'g'] hends (by decide) (by decide)
    simp [e1, e2, e3, e4, e5, e6, e7, hends]
  · obtain ⟨rfl, rfl⟩ := hx
    simp at hends
    have e1 := strEndsWith_false_of_incomparable s ['_', 'e', 'n', 'v', 'm', 'a', 'p'] ['_', 'n'] hends (by decide) (by decide)
    have e2 := strEndsWith_false_of_incomparable s ['_', 'e', 'n', 'v', 'm', 'a', 'p'] ['_', 's'] hends (by decide) (by decide)
    have e3 := strEndsWith_false_of_incomparable s ['_', 'e', 'n', 'v', 'm', 'a', 'p'] ['_', 'm'] hends (by decide) (by decide)
    have e4 := strEndsWith_false_of_incomparable s ['_', 'e', 'n', 'v', 'm', 'a', 'p'] ['_', 's', 'k'] hends (by decide) (by decide)
    have e5 := strEndsWith_false_of_incomparable s ['_', 'e', 'n', 'v', 'm', 'a', 'p'] ['_', 'm', 's', 'n'] hends (by decide) (by decide)
    have e6 := strEndsWith_false_of_incomparable s ['_', 'e', 'n', 'v', 'm', 'a', 'p'] ['_', 'e'] hends (by decide) (by decide)
    have e7 := strEndsWith_false_of_incomparable s ['_', 'e', 'n', 'v', 'm', 'a', 'p'] ['_', 'g'] hends (by decide) (by decide)
    have e8 := strEndsWith_false_of_incomparable s ['_', 'e', 'n', 'v', 'm', 'a', 'p'] ['_', 'e', 'm'] hends (by decide) (by decide)
    simp [e1, e2, e3, e4, e5, e6, e7, e8, hends]
  · obtain ⟨rfl, rfl⟩ := hx
    simp at hends
    have e1 := strEndsWith_false_of_incomparable s ['_', 'e', 'n', 'v'] ['_', 'n'] hends (by decide) (by decide)
    have e2 := strEndsWith_false_of_incomparable s ['_', 'e', 'n', 'v'] ['_', 's'] hends (by decide) (by decide)
    have e3 := strEndsWith_false_of_incomparable s ['_', 'e', 'n', 'v'] ['_', 'm'] hends (by decide) (by decide)
    have e4 := strEndsWith_false_of_incomparable s ['_', 'e', 'n', 'v'] ['_', 's', 'k'] hends (by decide) (by decide)
    have e5 := strEndsWith_false_of_incomparable s ['_', 'e', 'n', 'v'] ['_', 'm', 's', 'n'] hends (by decide) (by decide)
    have e6 := strEndsWith_false_of_incomparable s ['_', 'e', 'n', 'v'] ['_', 'e'] hends (by decide) (by decide)
    have e7 := strEndsWith_false_of_incomparable s ['_', 'e', 'n', 'v'] ['_', 'g'] hends (by decide) (by decide)
    have e8 := strEndsWith_false_of_incomparable s ['_', 'e', 'n', 'v'] ['_', 'e', 'm'] hends (by decide) (by decide)
    simp [e1, e2, e3, e4, e5, e6, e7, e8, hends]

/-- C9 witness: the general suffix statement at a concrete name. -/
theorem c9_classify_witness :
    classify_texture "a_sk.dds".toList = some "Subsurface".toList :=
  c9_classify_suffix_precedence.2 "a_sk.dds".toList "a_sk".toList "_sk".toList
    "Subsurface".toList (by decide) (by decide) (by decide)

/-- C6: the header extractor fails with the too-small error on a 64-byte
buffer, fails with the format error on a 128-byte buffer whose first four
bytes are not the magic constant, and on a buffer with correct magic, the
FourCC flag at offset 80, the "DX10" sentinel at offset 84 and extended
code 98 at offset 128 it succeeds with format label BC7 and the height and
width read little-endian from offsets 12 and 16. -/
theorem c6_header_extractor_concrete :
    parse_dds_header (List.replicate 64 0) = .error (.tooSmall 64)
    ∧ parse_dds_header (List.replicate 128 0) = .error (.formatError 0)
    ∧ parse_dds_header dx10Bc7Buffer =
        .ok { width := 1024, height := 512, format := .BC7 } := by
  refine ⟨rfl, rfl, rfl⟩

/-- C4: the normaliser itself satisfies the contract on the claimed pair —
but the public get_file lookup computes its key ad hoc without the
separator replacement, so a lookup through a backslash spelling of an
indexed path misses while a case-variant spelling hits.  This contradicts
the claimed (and specified) behaviour of get_file; the fields of the
spec single out exactly this risk, so the code is the slip. -/
theorem c4_normalize_contract_vs_get_file :
    normalize_path "Textures\\Foo.DDS".toList = "textures/foo.dds".toList
    ∧ normalize_path "Textures\\Foo.DDS".toList = normalize_path "textures/foo.dds".toList
    ∧ get_file_key "Textures\\Foo.DDS".toList = "textures\\foo.dds".toList
    ∧ get_file [("textures/foo.dds".toList,
        FileSource.mod "m".toList 1 "mods/m/Textures/Foo.DDS".toList)]
        "Textures\\Foo.DDS".toList = none
    ∧ get_file [("textures/foo.dds".toList,
        FileSource.mod "m".toList 1 "mods/m/Textures/Foo.DDS".toList)]
        "TEXTURES/FOO.DDS".toList =
        some (FileSource.mod "m".toList 1 "mods/m/Textures/Foo.DDS".toList) := by
  refine ⟨by decide, by decide, by decide, by decide, by decide⟩

/-- C10: the loose-phase texture predicate requires the "textures/" prefix
with the slash while the archive-phase predicate only requires "textures",
so "textures2/foo.dds" is admitted by the archive phase and rejected by
the loose phase; every loose-admissible key is archive-admissible; a key
failing the loose predicate can never appear in the loose-phase catalog,
while a concrete archive entry under "textures2" does enter the archive
phase catalog. -/
theorem c10_texture_predicate_asymmetry :
    vfsTexPred "textures2/foo.dds".toList = false
    ∧ bsaTexPred "textures2/foo.dds".toList = true
    ∧ (∀ k : Str, vfsTexPred k = true → bsaTexPred k = true)
    ∧ (∀ (m : List (Str × FileSource)) (stat : Str → Option Nat) (k : Str),
        vfsTexPred k = false → mapLookup (discover_from_vfs m stat) k = none)
    ∧ (mapLookup (discover_from_bsas [textures2Archive] []).1
        "textures2/foo.dds".toList).isSome = true := by
  refine ⟨by decide, by decide, ?_, ?_, by decide⟩
  · intro k h
    simp only [vfsTexPred, Bool.and_eq_true] at h
    obtain ⟨he, hs⟩ := h
    simp only [strStartsWith, List.isPrefixOf_iff_prefix] at hs
    have h2 : "textures".toList <+: k :=
      List.IsPrefix.trans (by decide) hs
    simp only [bsaTexPred, Bool.and_eq_true, he, true_and, strStartsWith,
      List.isPrefixOf_iff_prefix]
    exact h2
  · intro m stat k hk
    exact vfsDiscover_foldl_none stat k (get_texture_files m) []
      (fun kv h => (List.mem_filter.mp h).2) hk rfl

/-- C10 witness: the predicate implication and the loose-phase exclusion
at concrete inputs. -/
theorem c10_texture_predicate_witness :
    bsaTexPred "textures/a.dds".toList = true
    ∧ mapLookup (discover_from_vfs [("textures2/foo.dds".toList,
        FileSource.vanilla "data/textures2/foo.dds".toList)] (fun _ => some 1))
        "textures2/foo.dds".toList = none :=
  ⟨c10_texture_predicate_asymmetry.2.2.1 "textures/a.dds".toList (by decide),
   c10_texture_predicate_asymmetry.2.2.2.1 _ _ "textures2/foo.dds".toList (by decide)⟩

/-- C7: for every buffer of at least 128 bytes whose first 32-bit word is
the magic constant, extraction succeeds — and only shorter buffers or
wrong-magic buffers fail; an unrecognised FourCC tag yields the diagnostic
label embedding the raw tag and an unrecognised extended DXGI code yields
the diagnostic label embedding the raw code, never an error. -/
theorem c7_structural_failures_only :
    (∀ input : List Nat,
      (∃ hdr, parse_dds_header input = .ok hdr) ↔
        128 ≤ input.length ∧ readLE32 (headerBuffer input) 0 = DDS_MAGIC)
    ∧ (∀ input : List Nat, 128 ≤ input.length →
        readLE32 (headerBuffer input) 0 = DDS_MAGIC →
        fourccFlagSet (readLE32 (headerBuffer input) 80) = true →
        readLE32 (headerBuffer input) 84 ∉
          [FOURCC_DXT1, FOURCC_DXT2, FOURCC_DXT3, FOURCC_DXT4, FOURCC_DXT5, FOURCC_BC4U,
           FOURCC_BC4S, FOURCC_ATI1, FOURCC_BC5U, FOURCC_BC5S, FOURCC_ATI2, FOURCC_DX10] →
        parse_dds_header input = .ok
          { width := readLE32 (headerBuffer input) 16
            height := readLE32 (headerBuffer input) 12
            format := .fourCC (readLE32 (headerBuffer input) 84) })
    ∧ (∀ input : List Nat, 128 ≤ input.length →
        readLE32 (headerBuffer input) 0 = DDS_MAGIC →
        fourccFlagSet (readLE32 (headerBuffer input) 80) = true →
        readLE32 (headerBuffer input) 84 = FOURCC_DX10 →
        readLE32 ((headerBuffer input).drop 128) 0 ∉
          [71, 72, 74, 75, 77, 78, 80, 81, 83, 84, 95, 96, 98, 99] →
        parse_dds_header input = .ok
          { width := readLE32 (headerBuffer input) 16
            height := readLE32 (headerBuffer input) 12
            format := .dxgi (readLE32 ((headerBuffer input).drop 128) 0) }) := by
  refine ⟨?_, ?_, ?_⟩
  · intro input
    constructor
    · rintro ⟨hdr, h⟩
      by_cases h1 : min input.length 148 < 128
      · simp only [parse_dds_header, if_pos h1] at h
        exact (Except.noConfusion h)
      · by_cases h2 : readLE32 (headerBuffer input) 0 = DDS_MAGIC
        · exact ⟨by omega, h2⟩
        · simp [parse_dds_header, h1, h2] at h
    · rintro ⟨hl, hm⟩
      have h1 : ¬ min input.length 148 < 128 := by omega
      refine ⟨⟨readLE32 (headerBuffer input) 16, readLE32 (headerBuffer input) 12,
        ddsFormatOf (headerBuffer input)⟩, ?_⟩
      simp [parse_dds_header, h1, hm]
  · intro input hl hm hflag hnot
    have h1 : ¬ min input.length 148 < 128 := by omega
    simp only [List.mem_cons, List.not_mem_nil, or_false, not_or] at hnot
    obtain ⟨n1, n2, n3, n4, n5, n6, n7, n8, n9, n10, n11, n12⟩ := hnot
    simp [parse_dds_header, ddsFormatOf, h1, hm, hflag, n1, n2, n3, n4, n5, n6, n7, n8,
      n9, n10, n11, n12]
  · intro input hl hm hflag hdx hnot
    have h1 : ¬ min input.length 148 < 128 := by omega
    have hlen : ¬ ((headerBuffer input).drop 128).length < 4 := by
      simp only [List.length_drop, headerBuffer_length]
      omega
    simp only [List.mem_cons, List.not_mem_nil, or_false, not_or] at hnot
    obtain ⟨m1, m2, m3, m4, m5, m6, m7, m8, m9, m10, m11, m12, m13, m14⟩ := hnot
    simp [parse_dds_header, ddsFormatOf, parse_dx10_format, h1, hm, hflag, hdx, hlen,
      headerBuffer_length, m1, m2, m3, m4, m5, m6, m7, m8, m9, m10, m11, m12, m13, m14, FOURCC_DX10,
      FOURCC_DXT1, FOURCC_DXT2, FOURCC_DXT3, FOURCC_DXT4, FOURCC_DXT5, FOURCC_BC4U,
      FOURCC_BC4S, FOURCC_ATI1, FOURCC_BC5U, FOURCC_BC5S, FOURCC_ATI2]

/-- C7 witness: the success criterion applied to a concrete 128-byte
magic-bearing buffer. -/
theorem c7_witness :
    ∃ hdr, parse_dds_header ([0x44, 0x44, 0x53, 0x20] ++ List.replicate 124 0) = .ok hdr :=
  (c7_structural_failures_only.1 ([0x44, 0x44, 0x53, 0x20] ++ List.replicate 124 0)).mpr
    ⟨by decide, by decide⟩


theorem processBsaEntry_eq_skip (bsa : BsaModel) (st : List (Str × TextureRecord) × BsaCounters)
    (e : BsaEntryModel) (hp : bsaTexPred (bsaNormalize (bsaFullPath e)) = false) :
    processBsaEntry bsa st e = st := by
  simp [processBsaEntry, hp]

theorem processBsaEntry_eq_bump (bsa : BsaModel) (st : List (Str × TextureRecord) × BsaCounters)
    (e : BsaEntryModel) (hp : bsaTexPred (bsaNormalize (bsaFullPath e)) = true)
    (hc : mapContains st.1 (bsaNormalize (bsaFullPath e)) = true) :
    processBsaEntry bsa st e =
      (mapModify st.1 (bsaNormalize (bsaFullPath e))
        (fun r => { r with conflict_count := r.conflict_count + 1 }), st.2) := by
  simp [processBsaEntry, hp, hc]

theorem processBsaEntry_eq_insert (bsa : BsaModel) (st : List (Str × TextureRecord) × BsaCounters)
    (e : BsaEntryModel) (hp : bsaTexPred (bsaNormalize (bsaFullPath e)) = true)
    (hc : mapContains st.1 (bsaNormalize (bsaFullPath e)) = false) :
    processBsaEntry bsa st e =
      (mapInsert st.1 (bsaNormalize (bsaFullPath e))
        (obtainAndParse e
          { TextureRecord.from_bsa_file (bsaNormalize (bsaFullPath e)) bsa.path bsa.file_name
              e.raw_bytes.length with
            texture_type := classify_texture (bsaNormalize (bsaFullPath e)) }
          { st.2 with texture_count := st.2.texture_count + 1 }).1,
       (obtainAndParse e
          { TextureRecord.from_bsa_file (bsaNormalize (bsaFullPath e)) bsa.path bsa.file_name
              e.raw_bytes.length with
            texture_type := classify_texture (bsaNormalize (bsaFullPath e)) }
          { st.2 with texture_count := st.2.texture_count + 1 }).2) := by
  simp [processBsaEntry, hp, hc]

theorem applyHeaderParse_fields (bytes : List Nat) (r : TextureRecord) (c : BsaCounters) :
    (applyHeaderParse bytes r c).1.internal_path = r.internal_path
    ∧ (applyHeaderParse bytes r c).1.actual_path = r.actual_path
    ∧ (applyHeaderParse bytes r c).1.source = r.source
    ∧ (applyHeaderParse bytes r c).1.file_size = r.file_size
    ∧ (applyHeaderParse bytes r c).1.conflict_count = r.conflict_count := by
  by_cases hb : bytes.length < 128
  · simp [applyHeaderParse, hb]
  · cases hph : parse_dds_header bytes <;> simp [applyHeaderParse, hb, hph]

theorem obtainAndParse_fields (e : BsaEntryModel) (r : TextureRecord) (c : BsaCounters) :
    (obtainAndParse e r c).1.internal_path = r.internal_path
    ∧ (obtainAndParse e r c).1.actual_path = r.actual_path
    ∧ (obtainAndParse e r c).1.source = r.source
    ∧ (obtainAndParse e r c).1.file_size = r.file_size
    ∧ (obtainAndParse e r c).1.conflict_count = r.conflict_count := by
  cases hd : e.is_decompressed
  · cases hp : e.primary
    · cases hl : e.lz4
      · simp [obtainAndParse, hd, hp, hl]
      · simpa [obtainAndParse, hd, hp, hl] using applyHeaderParse_fields _ r c
    · simpa [obtainAndParse, hd, hp] using applyHeaderParse_fields _ r c
  · simpa [obtainAndParse, hd] using applyHeaderParse_fields e.raw_bytes r c

theorem processBsaEntry_lookup_some (bsa : BsaModel)
    (st : List (Str × TextureRecord) × BsaCounters) (e : BsaEntryModel) (k : Str)
    (r : TextureRecord) (hr : mapLookup st.1 k = some r) :
    mapLookup (processBsaEntry bsa st e).1 k =
      some (if bsaTexPred (bsaNormalize (bsaFullPath e)) &&
              (bsaNormalize (bsaFullPath e) == k)
        then { r with conflict_count := r.conflict_count + 1 } else r) := by
  by_cases hp : bsaTexPred (bsaNormalize (bsaFullPath e)) = true
  · by_cases hk : bsaNormalize (bsaFullPath e) = k
    · have hc : mapContains st.1 (bsaNormalize (bsaFullPath e)) = true := by
        rw [hk]; simp [mapContains, hr]
      rw [processBsaEntry_eq_bump bsa st e hp hc]
      show mapLookup (mapModify st.1 (bsaNormalize (bsaFullPath e)) _) k = _
      rw [hk, mapLookup_mapModify_self, hr]
      rw [hk] at hp
      simp [hp, hk]
    · rw [show (bsaTexPred (bsaNormalize (bsaFullPath e)) &&
          (bsaNormalize (bsaFullPath e) == k)) = false by simp [hp, hk]]
      simp only [Bool.false_eq_true, if_false]
      by_cases hc : mapContains st.1 (bsaNormalize (bsaFullPath e)) = true
      · rw [processBsaEntry_eq_bump bsa st e hp hc]
        exact (mapLookup_mapModify_other _ _ _ _ hk).trans hr
      · rw [processBsaEntry_eq_insert bsa st e hp (by simpa using hc)]
        exact (mapLookup_mapInsert_other _ _ _ _ hk).trans hr
  · have hp' : bsaTexPred (bsaNormalize (bsaFullPath e)) = false := by simpa using hp
    rw [processBsaEntry_eq_skip bsa st e hp', hr]
    simp [hp']

theorem processBsaEntry_lookup_none (bsa : BsaModel)
    (st : List (Str × TextureRecord) × BsaCounters) (e : BsaEntryModel) (k : Str)
    (hr : mapLookup st.1 k = none)
    (hm : (bsaTexPred (bsaNormalize (bsaFullPath e)) &&
      (bsaNormalize (bsaFullPath e) == k)) = false) :
    mapLookup (processBsaEntry bsa st e).1 k = none := by
  by_cases hp : bsaTexPred (bsaNormalize (bsaFullPath e)) = true
  · have hk : bsaNormalize (bsaFullPath e) ≠ k := by
      simp [hp] at hm
      exact hm
    by_cases hc : mapContains st.1 (bsaNormalize (bsaFullPath e)) = true
    · rw [processBsaEntry_eq_bump bsa st e hp hc]
      exact (mapLookup_mapModify_other _ _ _ _ hk).trans hr
    · rw [processBsaEntry_eq_insert bsa st e hp (by simpa using hc)]
      exact (mapLookup_mapInsert_other _ _ _ _ hk).trans hr
  · have hp' : bsaTexPred (bsaNormalize (bsaFullPath e)) = false := by simpa using hp
    rw [processBsaEntry_eq_skip bsa st e hp']
    exact hr

theorem foldl_entries_lookup_some (bsa : BsaModel) (entries : List BsaEntryModel) :
    ∀ (st : List (Str × TextureRecord) × BsaCounters) (k : Str) (r : TextureRecord),
    mapLookup st.1 k = some r →
    mapLookup (entries.foldl (processBsaEntry bsa) st).1 k =
      some { r with conflict_count := r.conflict_count +
        (entries.filter (fun e => bsaTexPred (bsaNormalize (bsaFullPath e)) &&
          (bsaNormalize (bsaFullPath e) == k))).length } := by
  induction entries with
  | nil => intro st k r hr; simpa using hr
  | cons e es ih =>
    intro st k r hr
    simp only [List.foldl_cons, List.filter_cons]
    have h1 := processBsaEntry_lookup_some bsa st e k r hr
    by_cases hm : (bsaTexPred (bsaNormalize (bsaFullPath e)) &&
        (bsaNormalize (bsaFullPath e) == k)) = true
    · rw [hm] at h1
      simp only [if_true] at h1
      have h2 := ih (processBsaEntry bsa st e) k _ h1
      rw [h2]
      have harith : r.conflict_count + 1 +
          (es.filter (fun e => bsaTexPred (bsaNormalize (bsaFullPath e)) &&
            (bsaNormalize (bsaFullPath e) == k))).length =
          r.conflict_count + ((es.filter (fun e => bsaTexPred (bsaNormalize (bsaFullPath e)) &&
            (bsaNormalize (bsaFullPath e) == k))).length + 1) := by omega
      simp [hm, harith]
    · have hm' : (bsaTexPred (bsaNormalize (bsaFullPath e)) &&
          (bsaNormalize (bsaFullPath e) == k)) = false := by
        revert hm; cases (bsaTexPred (bsaNormalize (bsaFullPath e)) &&
          (bsaNormalize (bsaFullPath e) == k)) <;> simp
      rw [hm'] at h1
      simp only [Bool.false_eq_true, if_false] at h1
      have h2 := ih (processBsaEntry bsa st e) k r h1
      rw [h2]
      simp [hm']

theorem processBsa_lookup_some (bsa : BsaModel)
    (st : List (Str × TextureRecord) × BsaCounters) (k : Str) (r : TextureRecord)
    (hr : mapLookup st.1 k = some r) :
    mapLookup (processBsa st bsa).1 k =
      some { r with conflict_count := r.conflict_count + archMatchCount bsa k } := by
  by_cases he : bsa.path_exists = true
  · cases ho : bsa.open_result with
    | none => simp [processBsa, archMatchCount, he, ho, hr]
    | some entries =>
      have h1 : processBsa st bsa =
          entries.foldl (processBsaEntry bsa)
            (st.1, { st.2 with bsa_count := st.2.bsa_count + 1 }) := by
        unfold processBsa
        rw [he, ho]
        simp
      have h2 : archMatchCount bsa k =
          (entries.filter (fun e => bsaTexPred (bsaNormalize (bsaFullPath e)) &&
            (bsaNormalize (bsaFullPath e) == k))).length := by
        unfold archMatchCount
        rw [he, ho]
        simp
      rw [h1, h2]
      exact foldl_entries_lookup_some bsa entries
        (st.1, { st.2 with bsa_count := st.2.bsa_count + 1 }) k r hr
  · have he' : bsa.path_exists = false := by simpa using he
    have h1 : processBsa st bsa = st := by
      unfold processBsa
      rw [he']
      simp
    have h2 : archMatchCount bsa k = 0 := by
      unfold archMatchCount
      rw [he']
      simp
    rw [h1, h2, hr]
    simp

theorem foldl_bsas_lookup_some (bsas : List BsaModel) :
    ∀ (st : List (Str × TextureRecord) × BsaCounters) (k : Str) (r : TextureRecord),
    mapLookup st.1 k = some r →
    mapLookup (bsas.foldl processBsa st).1 k =
      some { r with conflict_count := r.conflict_count +
        (bsas.map (fun b => archMatchCount b k)).sum } := by
  induction bsas with
  | nil => intro st k r hr; simpa using hr
  | cons b bs ih =>
    intro st k r hr
    simp only [List.foldl_cons, List.map_cons, List.sum_cons]
    have h1 := processBsa_lookup_some b st k r hr
    have h2 := ih (processBsa st b) k _ h1
    rw [h2]
    have harith : r.conflict_count + archMatchCount b k +
        (bs.map (fun b => archMatchCount b k)).sum =
        r.conflict_count + (archMatchCount b k +
          (bs.map (fun b => archMatchCount b k)).sum) := by omega
    simp [harith]


theorem processBsaEntry_lookup_insert (bsa : BsaModel)
    (st : List (Str × TextureRecord) × BsaCounters) (e : BsaEntryModel) (k : Str)
    (hk : bsaNormalize (bsaFullPath e) = k) (hp : bsaTexPred k = true)
    (hc : mapLookup st.1 k = none) :
    ∃ r', mapLookup (processBsaEntry bsa st e).1 k = some r'
      ∧ r'.internal_path = k ∧ r'.actual_path = bsa.path ∧ r'.source = bsa.file_name
      ∧ r'.file_size = e.raw_bytes.length ∧ r'.conflict_count = 0 := by
  have hp' : bsaTexPred (bsaNormalize (bsaFullPath e)) = true := by rw [hk]; exact hp
  have hc' : mapContains st.1 (bsaNormalize (bsaFullPath e)) = false := by
    rw [hk]; simp [mapContains, hc]
  rw [processBsaEntry_eq_insert bsa st e hp' hc']
  have hf := obtainAndParse_fields e
    { TextureRecord.from_bsa_file (bsaNormalize (bsaFullPath e)) bsa.path bsa.file_name
        e.raw_bytes.length with
      texture_type := classify_texture (bsaNormalize (bsaFullPath e)) }
    { st.2 with texture_count := st.2.texture_count + 1 }
  refine ⟨(obtainAndParse e
      { TextureRecord.from_bsa_file (bsaNormalize (bsaFullPath e)) bsa.path bsa.file_name
          e.raw_bytes.length with
        texture_type := classify_texture (bsaNormalize (bsaFullPath e)) }
      { st.2 with texture_count := st.2.texture_count + 1 }).1, ?_, ?_, ?_, ?_, ?_, ?_⟩
  · rw [hk]
    exact mapLookup_mapInsert_self _ _ _
  · rw [hf.1]
    simp [TextureRecord.from_bsa_file, hk]
  · rw [hf.2.1]
    simp [TextureRecord.from_bsa_file]
  · rw [hf.2.2.1]
    simp [TextureRecord.from_bsa_file]
  · rw [hf.2.2.2.1]
    simp [TextureRecord.from_bsa_file]
  · rw [hf.2.2.2.2]
    simp [TextureRecord.from_bsa_file]

theorem foldl_entries_lookup_insert (bsa : BsaModel) (entries : List BsaEntryModel) :
    ∀ (st : List (Str × TextureRecord) × BsaCounters) (k : Str),
    mapLookup st.1 k = none →
    1 ≤ (entries.filter (fun e => bsaTexPred (bsaNormalize (bsaFullPath e)) &&
        (bsaNormalize (bsaFullPath e) == k))).length →
    ∃ r', mapLookup (entries.foldl (processBsaEntry bsa) st).1 k = some r'
      ∧ r'.internal_path = k ∧ r'.actual_path = bsa.path ∧ r'.source = bsa.file_name
      ∧ r'.conflict_count = (entries.filter (fun e =>
          bsaTexPred (bsaNormalize (bsaFullPath e)) &&
          (bsaNormalize (bsaFullPath e) == k))).length - 1 := by
  induction entries with
  | nil => intro st k hnone hn; simp at hn
  | cons e es ih =>
    intro st k hnone hn
    simp only [List.foldl_cons, List.filter_cons]
    by_cases hm : (bsaTexPred (bsaNormalize (bsaFullPath e)) &&
        (bsaNormalize (bsaFullPath e) == k)) = true
    · obtain ⟨hmp, hmk⟩ := Bool.and_eq_true_iff.mp hm
      have hk : bsaNormalize (bsaFullPath e) = k := by simpa using hmk
      have hpk : bsaTexPred k = true := by rw [← hk]; exact hmp
      obtain ⟨r0, hl0, hip0, hap0, hsrc0, _, hcc0⟩ :=
        processBsaEntry_lookup_insert bsa st e k hk hpk hnone
      have h2 := foldl_entries_lookup_some bsa es (processBsaEntry bsa st e) k r0 hl0
      refine ⟨_, h2, ?_, ?_, ?_, ?_⟩
      · simpa using hip0
      · simpa using hap0
      · simpa using hsrc0
      · simp [hm, hcc0]
    · have hm' : (bsaTexPred (bsaNormalize (bsaFullPath e)) &&
          (bsaNormalize (bsaFullPath e) == k)) = false := by
        revert hm; cases (bsaTexPred (bsaNormalize (bsaFullPath e)) &&
          (bsaNormalize (bsaFullPath e) == k)) <;> simp
      have hnone2 := processBsaEntry_lookup_none bsa st e k hnone hm'
      simp only [List.filter_cons, hm', Bool.false_eq_true, if_false] at hn ⊢
      exact ih (processBsaEntry bsa st e) k hnone2 hn

theorem processBsa_lookup_insert (bsa : BsaModel)
    (st : List (Str × TextureRecord) × BsaCounters) (k : Str)
    (hnone : mapLookup st.1 k = none) (hn : 1 ≤ archMatchCount bsa k) :
    ∃ r', mapLookup (processBsa st bsa).1 k = some r'
      ∧ r'.internal_path = k ∧ r'.actual_path = bsa.path ∧ r'.source = bsa.file_name
      ∧ r'.conflict_count = archMatchCount bsa k - 1 := by
  by_cases he : bsa.path_exists = true
  · cases ho : bsa.open_result with
    | none =>
      exfalso
      unfold archMatchCount at hn
      rw [he, ho] at hn
      simp at hn
    | some entries =>
      have h1 : processBsa st bsa =
          entries.foldl (processBsaEntry bsa)
            (st.1, { st.2 with bsa_count := st.2.bsa_count + 1 }) := by
        unfold processBsa
        rw [he, ho]
        simp
      have h2 : archMatchCount bsa k =
          (entries.filter (fun e => bsaTexPred (bsaNormalize (bsaFullPath e)) &&
            (bsaNormalize (bsaFullPath e) == k))).length := by
        unfold archMatchCount
        rw [he, ho]
        simp
      rw [h1, h2]
      rw [h2] at hn
      exact foldl_entries_lookup_insert bsa entries
        (st.1, { st.2 with bsa_count := st.2.bsa_count + 1 }) k hnone hn
  · exfalso
    unfold archMatchCount at hn
    have he' : bsa.path_exists = false := by simpa using he
    rw [he'] at hn
    simp at hn

theorem sum_archMatch_all_one (k : Str) (l : List BsaModel)
    (h : ∀ b ∈ l, archMatchCount b k = 1) :
    (l.map (fun b => archMatchCount b k)).sum = l.length := by
  induction l with
  | nil => simp
  | cons b bs ih =>
    simp only [List.map_cons, List.sum_cons, List.length_cons]
    rw [h b (by simp), ih (fun b' hb' => h b' (by simp [hb']))]
    omega


/-- C3: a record already in the catalog before the archive phase — in
particular every loose-phase record — keeps its origin label, physical
locator, byte size and all other fields unchanged by discover_from_bsas
over any archive list, except that conflict_count grows by exactly one per
matching archive entry with the same key. -/
theorem c3_loose_records_immutable (bsa_paths : List BsaModel)
    (textures : List (Str × TextureRecord)) (k : Str) (r : TextureRecord)
    (hr : mapLookup textures k = some r) (_hsrc : r.source = "loose".toList) :
    mapLookup (discover_from_bsas bsa_paths textures).1 k =
      some { r with conflict_count := r.conflict_count + totalMatchCount bsa_paths k } := by
  unfold discover_from_bsas
  have h := foldl_bsas_lookup_some bsa_paths.reverse (textures, BsaCounters.init) k r hr
  rw [h]
  have hsum : (bsa_paths.reverse.map (fun b => archMatchCount b k)).sum =
      totalMatchCount bsa_paths k := by
    unfold totalMatchCount
    rw [List.map_reverse, List.sum_reverse]
  rw [hsum]

/-- C3 witness: the loose record keeps its fields and gains one conflict
from the one matching archive. -/
theorem c3_loose_records_witness :
    mapLookup (discover_from_bsas [conflictingArchive] looseCatalogA).1
        "textures/a.dds".toList =
      some { looseRecordA with
        conflict_count := looseRecordA.conflict_count +
          totalMatchCount [conflictingArchive] "textures/a.dds".toList } :=
  c3_loose_records_immutable [conflictingArchive] looseCatalogA
    "textures/a.dds".toList looseRecordA (by decide) (by decide)

/-- C2 counterexample: three archives at ranks 1, 2, 3 in ascending
order, all providing the key "textures/shared.dds" with no loose file for
it: the record is sourced from archive c.bsa — the highest-ranked, last in
the list, opened first under the reverse iteration — not from the
lowest-ranked a.bsa as claimed; conflict_count is 2 as claimed. -/
theorem c2_counterexample :
    (mapLookup (discover_from_bsas [archiveA, archiveB, archiveC] []).1
        "textures/shared.dds".toList).map (fun r => (r.source, r.conflict_count)) =
      some ("c.bsa".toList, 2)
    ∧ "c.bsa".toList ≠ "a.bsa".toList := by
  refine ⟨by decide, by decide⟩

/-- C2 amended: when the archive list, in ascending rank order, has
several archives all providing the same key and no loose file provides it,
the catalog record originates from the last archive of the list — the
highest-ranked one, which the reverse iteration opens first — and its
conflict_count equals the number of other archives providing the key. -/
theorem c2_first_write_wins_amended (bsas : List BsaModel)
    (textures : List (Str × TextureRecord)) (k : Str) (blast : BsaModel)
    (hnone : mapLookup textures k = none)
    (hlast : bsas.getLast? = some blast)
    (hall : ∀ b ∈ bsas, archMatchCount b k = 1) :
    ∃ r', mapLookup (discover_from_bsas bsas textures).1 k = some r'
      ∧ r'.source = blast.file_name ∧ r'.actual_path = blast.path
      ∧ r'.conflict_count = bsas.length - 1 := by
  have hrev : bsas.reverse.head? = some blast := by
    rw [List.head?_reverse]; exact hlast
  cases hr2 : bsas.reverse with
  | nil => rw [hr2] at hrev; cases hrev
  | cons b t =>
    rw [hr2] at hrev
    have hb : b = blast := by
      simpa using hrev
    subst hb
    unfold discover_from_bsas
    rw [hr2]
    simp only [List.foldl_cons]
    have hbmem : b ∈ bsas := by
      have hmem : b ∈ bsas.reverse := by rw [hr2]; simp
      exact List.mem_reverse.mp hmem
    have h1 := processBsa_lookup_insert b (textures, BsaCounters.init) k hnone
      (by rw [hall b hbmem])
    obtain ⟨r0, hl0, hip0, hap0, hsrc0, hcc0⟩ := h1
    have h2 := foldl_bsas_lookup_some t (processBsa (textures, BsaCounters.init) b) k r0 hl0
    refine ⟨_, h2, ?_, ?_, ?_⟩
    · simpa using hsrc0
    · simpa using hap0
    · have hts : ∀ b' ∈ t, archMatchCount b' k = 1 := by
        intro b' hb'
        apply hall
        have hmem : b' ∈ bsas.reverse := by rw [hr2]; exact List.mem_cons_of_mem _ hb'
        exact List.mem_reverse.mp hmem
      have hsum := sum_archMatch_all_one k t hts
      have hlen : bsas.length = t.length + 1 := by
        have hlr : bsas.reverse.length = t.length + 1 := by rw [hr2]; simp
        simpa using hlr
      simp [hcc0, hall b hbmem, hsum, hlen]

/-- C2 witness: the amended statement at the three concrete archives. -/
theorem c2_first_write_wins_witness :
    ∃ r', mapLookup (discover_from_bsas [archiveA, archiveB, archiveC] []).1
        "textures/shared.dds".toList = some r'
      ∧ r'.source = archiveC.file_name ∧ r'.actual_path = archiveC.path
      ∧ r'.conflict_count = [archiveA, archiveB, archiveC].length - 1 :=
  c2_first_write_wins_amended [archiveA, archiveB, archiveC] []
    "textures/shared.dds".toList archiveC rfl (by decide) (by decide)

/-- C5: final bytes for an archive entry are the raw bytes when the entry
is already decompressed, else the primary codec's output, else the LZ4
fallback's output over the still-compressed raw bytes; when both codecs
fail the decompress-failed counter is incremented, the record is still
inserted with width, height and format absent, and the fold continues
with the remaining entries instead of aborting. -/
theorem c5_decompression_fallback :
    (∀ (e : BsaEntryModel) (r : TextureRecord) (c : BsaCounters), e.is_decompressed = true →
      obtainAndParse e r c = applyHeaderParse e.raw_bytes r c)
    ∧ (∀ (e : BsaEntryModel) (r : TextureRecord) (c : BsaCounters) (b : List Nat),
        e.is_decompressed = false → e.primary = some b →
        obtainAndParse e r c = applyHeaderParse b r c)
    ∧ (∀ (e : BsaEntryModel) (r : TextureRecord) (c : BsaCounters) (b : List Nat),
        e.is_decompressed = false → e.primary = none → e.lz4 = some b →
        obtainAndParse e r c = applyHeaderParse b r c)
    ∧ (∀ (e : BsaEntryModel) (r : TextureRecord) (c : BsaCounters),
        e.is_decompressed = false → e.primary = none → e.lz4 = none →
        obtainAndParse e r c = (r, { c with decompress_failed := c.decompress_failed + 1 }))
    ∧ (∀ (bsa : BsaModel) (st : List (Str × TextureRecord) × BsaCounters) (e : BsaEntryModel),
        bsaTexPred (bsaNormalize (bsaFullPath e)) = true →
        mapContains st.1 (bsaNormalize (bsaFullPath e)) = false →
        e.is_decompressed = false → e.primary = none → e.lz4 = none →
        processBsaEntry bsa st e =
          (mapInsert st.1 (bsaNormalize (bsaFullPath e))
            { internal_path := bsaNormalize (bsaFullPath e), actual_path := bsa.path,
              source := bsa.file_name, file_size := e.raw_bytes.length, width := none,
              height := none, format := none,
              texture_type := classify_texture (bsaNormalize (bsaFullPath e)),
              conflict_count := 0 },
           { st.2 with
              texture_count := st.2.texture_count + 1
              decompress_failed := st.2.decompress_failed + 1 }))
    ∧ (∀ (bsa : BsaModel) (st : List (Str × TextureRecord) × BsaCounters) (e : BsaEntryModel)
        (es : List BsaEntryModel),
        (e :: es).foldl (processBsaEntry bsa) st =
          es.foldl (processBsaEntry bsa) (processBsaEntry bsa st e)) := by
  refine ⟨?_, ?_, ?_, ?_, ?_, ?_⟩
  · intro e r c hd
    simp [obtainAndParse, hd]
  · intro e r c b hd hp
    simp [obtainAndParse, hd, hp]
  · intro e r c b hd hp hl
    simp [obtainAndParse, hd, hp, hl]
  · intro e r c hd hp hl
    simp [obtainAndParse, hd, hp, hl]
  · intro bsa st e hpred hcont hd hp hl
    rw [processBsaEntry_eq_insert bsa st e hpred hcont]
    simp [obtainAndParse, hd, hp, hl, TextureRecord.from_bsa_file]
  · intro bsa st e es
    rfl

/-- C5 witness: a concrete entry whose primary and LZ4 codecs both fail is
inserted without metadata and tallies one decompress failure. -/
theorem c5_decompression_fallback_witness :
    (processBsaEntry
        ⟨"p.bsa".toList, "p.bsa".toList, "m".toList, 0, true, some []⟩
        ([], BsaCounters.init)
        ⟨"textures".toList, "x.dds".toList, false, [], none, none⟩).2.decompress_failed = 1
    ∧ (mapLookup (processBsaEntry
        ⟨"p.bsa".toList, "p.bsa".toList, "m".toList, 0, true, some []⟩
        ([], BsaCounters.init)
        ⟨"textures".toList, "x.dds".toList, false, [], none, none⟩).1
        "textures/x.dds".toList).map (fun r => (r.width, r.height, r.format)) =
      some (none, none, none) := by
  rw [c5_decompression_fallback.2.2.2.2.1
    ⟨"p.bsa".toList, "p.bsa".toList, "m".toList, 0, true, some []⟩
    ([], BsaCounters.init)
    ⟨"textures".toList, "x.dds".toList, false, [], none, none⟩
    (by decide) (by decide) rfl rfl rfl]
  refine ⟨rfl, by decide⟩


theorem mapLookup_mapInsert_cases {β : Type} (m : List (Str × β)) (k k' : Str) (v : β) :
    mapLookup (mapInsert m k' v) k = if k' = k then some v else mapLookup m k := by
  by_cases h : k' = k
  · subst h
    rw [if_pos rfl, mapLookup_mapInsert_self]
  · rw [if_neg h, mapLookup_mapInsert_other _ _ _ _ h]

theorem mapLookup_mapUpsert_self {β : Type} (m : List (Str × β)) (k : Str) (f : β → β)
    (d : β) : mapLookup (mapUpsert m k f d) k = some ((mapLookup m k).elim d f) := by
  by_cases hc : mapContains m k = true
  · obtain ⟨v, hv⟩ := Option.isSome_iff_exists.mp (by simpa [mapContains] using hc)
    simp [mapUpsert, hc, mapLookup_mapModify_self, hv]
  · have hl : mapLookup m k = none := by
      revert hc
      simp [mapContains]
    have hc' : mapContains m k = false := by simp [mapContains, hl]
    simp [mapUpsert, hc', mapLookup_mapInsert_self, hl]

theorem mapLookup_mapUpsert_other {β : Type} (m : List (Str × β)) (k k' : Str) (f : β → β)
    (d : β) (h : k' ≠ k) : mapLookup (mapUpsert m k' f d) k = mapLookup m k := by
  by_cases hc : mapContains m k' = true
  · simp [mapUpsert, hc, mapLookup_mapModify_other _ _ _ _ h]
  · have hc' : mapContains m k' = false := by simpa using hc
    simp [mapUpsert, hc', mapLookup_mapInsert_other _ _ _ _ h]

theorem countKey_le_one_mapInsert {β : Type} (m : List (Str × β)) (k k' : Str) (v : β)
    (h : countKey m k ≤ 1) : countKey (mapInsert m k' v) k ≤ 1 := by
  by_cases hk : k' = k
  · subst hk
    by_cases hc : mapContains m k' = true
    · rw [countKey_mapInsert_contains _ _ _ hc]
      exact h
    · have hc' : mapContains m k' = false := by simpa using hc
      rw [countKey_mapInsert_absent _ _ _ hc', countKey_zero_of_not_contains _ _ hc']
  · rw [countKey_mapInsert_other _ _ _ _ hk]
    exact h

theorem countKey_le_one_mapUpsert {β : Type} (m : List (Str × β)) (k k' : Str) (f : β → β)
    (d : β) (h : countKey m k ≤ 1) : countKey (mapUpsert m k' f d) k ≤ 1 := by
  by_cases hc : mapContains m k' = true
  · simpa [mapUpsert, hc, countKey_mapModify] using h
  · have hc' : mapContains m k' = false := by simpa using hc
    simp only [mapUpsert, hc', Bool.false_eq_true, if_false]
    exact countKey_le_one_mapInsert m k k' d h

theorem modOrBase_index_vanilla_files (k : Str) (data_dir : Str) (walk : List Str) :
    ∀ m, modOrBase k m → modOrBase k (index_vanilla_files data_dir walk m) := by
  induction walk with
  | nil => intro m h; simpa [index_vanilla_files] using h
  | cons rel rest ih =>
    intro m h
    show modOrBase k (index_vanilla_files data_dir rest
      (mapInsert m (normalize_path rel) (.vanilla (pathJoin data_dir rel))))
    apply ih
    intro s hs
    rw [mapLookup_mapInsert_cases] at hs
    by_cases hk : normalize_path rel = k
    · rw [if_pos hk] at hs
      cases hs
      right
      rfl
    · rw [if_neg hk] at hs
      exact h s hs

theorem modOrBase_indexModStep (k : Str) (mi : ModInfo) (acc : List (Str × FileSource))
    (rel : Str) (h : modOrBase k acc) : modOrBase k (indexModStep mi acc rel) := by
  intro s hs
  unfold indexModStep at hs
  by_cases hk : normalize_path rel = k
  · rw [hk, mapLookup_mapUpsert_self] at hs
    cases hl : mapLookup acc k with
    | none =>
      rw [hl] at hs
      cases hs
      left
      rfl
    | some v =>
      rw [hl] at hs
      simp only [Option.elim] at hs
      by_cases hgt : mi.priority > v.priority
      · rw [if_pos hgt] at hs
        cases hs
        left
        rfl
      · rw [if_neg hgt] at hs
        cases hs
        exact h _ hl
  · rw [mapLookup_mapUpsert_other _ _ _ _ _ hk] at hs
    exact h s hs

theorem heldByMod_indexModStep (k : Str) (mi : ModInfo) (acc : List (Str × FileSource))
    (rel : Str) (h : heldByMod k acc) : heldByMod k (indexModStep mi acc rel) := by
  obtain ⟨v, hv, hmod⟩ := h
  unfold indexModStep
  by_cases hk : normalize_path rel = k
  · rw [hk]
    refine ⟨_, mapLookup_mapUpsert_self acc k _ _, ?_⟩
    rw [hv]
    simp only [Option.elim]
    by_cases hgt : mi.priority > v.priority
    · rw [if_pos hgt]
      rfl
    · rw [if_neg hgt]
      exact hmod
  · exact ⟨v, by rw [mapLookup_mapUpsert_other _ _ _ _ _ hk]; exact hv, hmod⟩

theorem heldByMod_indexModStep_established (k : Str) (mi : ModInfo)
    (acc : List (Str × FileSource)) (rel : Str) (hQ : modOrBase k acc)
    (hkey : normalize_path rel = k) (hpri : 1 ≤ mi.priority) :
    heldByMod k (indexModStep mi acc rel) := by
  unfold indexModStep
  rw [hkey]
  refine ⟨_, mapLookup_mapUpsert_self acc k _ _, ?_⟩
  cases hl : mapLookup acc k with
  | none => rfl
  | some v =>
    simp only [Option.elim]
    rcases hQ v hl with hmod | hzero
    · by_cases hgt : mi.priority > v.priority
      · rw [if_pos hgt]
        rfl
      · rw [if_neg hgt]
        exact hmod
    · have hgt : mi.priority > v.priority := by omega
      rw [if_pos hgt]
      rfl

theorem modOrBase_index_mod_files (k : Str) (mi : ModInfo) (walk : List Str) :
    ∀ acc, modOrBase k acc → modOrBase k (index_mod_files mi walk acc) := by
  induction walk with
  | nil => intro acc h; simpa [index_mod_files] using h
  | cons rel rest ih =>
    intro acc h
    exact ih (indexModStep mi acc rel) (modOrBase_indexModStep k mi acc rel h)

theorem heldByMod_index_mod_files (k : Str) (mi : ModInfo) (walk : List Str) :
    ∀ acc, heldByMod k acc → heldByMod k (index_mod_files mi walk acc) := by
  induction walk with
  | nil => intro acc h; simpa [index_mod_files] using h
  | cons rel rest ih =>
    intro acc h
    exact ih (indexModStep mi acc rel) (heldByMod_indexModStep k mi acc rel h)

theorem heldByMod_index_mod_files_established (k : Str) (mi : ModInfo) (walk : List Str)
    (acc : List (Str × FileSource)) (hQ : modOrBase k acc)
    (hrel : ∃ rel ∈ walk, normalize_path rel = k) (hpri : 1 ≤ mi.priority) :
    heldByMod k (index_mod_files mi walk acc) := by
  obtain ⟨rel, hmem, hkey⟩ := hrel
  obtain ⟨w1, w2, hw⟩ := List.append_of_mem hmem
  subst hw
  unfold index_mod_files
  rw [List.foldl_append, List.foldl_cons]
  have hQ1 : modOrBase k (w1.foldl (indexModStep mi) acc) :=
    modOrBase_index_mod_files k mi w1 acc hQ
  have hM : heldByMod k (indexModStep mi (w1.foldl (indexModStep mi) acc) rel) :=
    heldByMod_indexModStep_established k mi _ rel hQ1 hkey hpri
  exact heldByMod_index_mod_files k mi w2 _ hM

theorem modOrBase_mods_foldl (k : Str) (mods : List (ModInfo × List Str)) :
    ∀ acc, modOrBase k acc →
    modOrBase k (mods.foldl (fun acc mw => index_mod_files mw.1 mw.2 acc) acc) := by
  induction mods with
  | nil => intro acc h; simpa using h
  | cons mw rest ih =>
    intro acc h
    exact ih _ (modOrBase_index_mod_files k mw.1 mw.2 acc h)

theorem heldByMod_mods_foldl (k : Str) (mods : List (ModInfo × List Str)) :
    ∀ acc, heldByMod k acc →
    heldByMod k (mods.foldl (fun acc mw => index_mod_files mw.1 mw.2 acc) acc) := by
  induction mods with
  | nil => intro acc h; simpa using h
  | cons mw rest ih =>
    intro acc h
    exact ih _ (heldByMod_index_mod_files k mw.1 mw.2 acc h)

theorem countKey_le_one_index_vanilla_files (k : Str) (data_dir : Str) (walk : List Str) :
    ∀ m, countKey m k ≤ 1 → countKey (index_vanilla_files data_dir walk m) k ≤ 1 := by
  induction walk with
  | nil => intro m h; simpa [index_vanilla_files] using h
  | cons rel rest ih =>
    intro m h
    exact ih _ (countKey_le_one_mapInsert m k _ _ h)

theorem countKey_le_one_index_mod_files (k : Str) (mi : ModInfo) (walk : List Str) :
    ∀ acc, countKey acc k ≤ 1 → countKey (index_mod_files mi walk acc) k ≤ 1 := by
  induction walk with
  | nil => intro acc h; simpa [index_mod_files] using h
  | cons rel rest ih =>
    intro acc h
    exact ih _ (countKey_le_one_mapUpsert acc k _ _ _ h)

theorem countKey_le_one_mods_foldl (k : Str) (mods : List (ModInfo × List Str)) :
    ∀ acc, countKey acc k ≤ 1 →
    countKey (mods.foldl (fun acc mw => index_mod_files mw.1 mw.2 acc) acc) k ≤ 1 := by
  induction mods with
  | nil => intro acc h; simpa using h
  | cons mw rest ih =>
    intro acc h
    exact ih _ (countKey_le_one_index_mod_files k mw.1 mw.2 acc h)

/-- C1 counterexample: a base root providing a/x.dds and a rank-0 enabled
overlay providing A/X.DDS — the same normalized key — build a namespace
whose entry for the key is the base (vanilla) source, not the overlay's:
index_mod_files overwrites only on strictly greater priority and the
rank-0 overlay ties with the vanilla layer's priority 0. -/
theorem c1_counterexample :
    mapLookup (build_file_map "data".toList ["a/x.dds".toList]
        [(⟨"m0".toList, "mods/m0".toList, 0⟩, ["A/X.DDS".toList])]) "a/x.dds".toList =
      some (.vanilla "data/a/x.dds".toList)
    ∧ FileSource.isMod (.vanilla "data/a/x.dds".toList) = false := by
  refine ⟨by decide, rfl⟩

/-- C1 amended: for every normalized key provided by both the base root
and at least one enabled overlay of rank at least 1, the built virtual
namespace maps the key to an overlay (mod) source, never the base source,
and exactly one entry exists for the key.  (A rank-0 overlay ties with
the base's priority 0 and the base entry is retained, per the
counterexample.) -/
theorem c1_overlay_wins_amended (data_dir : Str) (vanilla_walk : List Str)
    (mods : List (ModInfo × List Str)) (k : Str)
    (_hbase : ∃ rel ∈ vanilla_walk, normalize_path rel = k)
    (hov : ∃ mw ∈ mods, 1 ≤ mw.1.priority ∧ ∃ rel ∈ mw.2, normalize_path rel = k) :
    (∃ s, mapLookup (build_file_map data_dir vanilla_walk mods) k = some s
      ∧ s.isMod = true)
    ∧ countKey (build_file_map data_dir vanilla_walk mods) k = 1 := by
  obtain ⟨mw, hmem, hpri, hrel⟩ := hov
  obtain ⟨m1, m2, hm⟩ := List.append_of_mem hmem
  subst hm
  have hheld : heldByMod k (build_file_map data_dir vanilla_walk (m1 ++ mw :: m2)) := by
    unfold build_file_map
    rw [List.foldl_append, List.foldl_cons]
    have hQ0 : modOrBase k (index_vanilla_files data_dir vanilla_walk []) :=
      modOrBase_index_vanilla_files k data_dir vanilla_walk [] (by intro s hs; cases hs)
    have hQ1 : modOrBase k (m1.foldl (fun acc mw => index_mod_files mw.1 mw.2 acc)
        (index_vanilla_files data_dir vanilla_walk [])) :=
      modOrBase_mods_foldl k m1 _ hQ0
    have hM : heldByMod k (index_mod_files mw.1 mw.2
        (m1.foldl (fun acc mw => index_mod_files mw.1 mw.2 acc)
          (index_vanilla_files data_dir vanilla_walk []))) :=
      heldByMod_index_mod_files_established k mw.1 mw.2 _ hQ1 hrel hpri
    exact heldByMod_mods_foldl k m2 _ hM
  have hle : countKey (build_file_map data_dir vanilla_walk (m1 ++ mw :: m2)) k ≤ 1 := by
    unfold build_file_map
    apply countKey_le_one_mods_foldl
    apply countKey_le_one_index_vanilla_files
    simp [countKey]
  obtain ⟨s, hs, hmod⟩ := hheld
  refine ⟨⟨s, hs, hmod⟩, ?_⟩
  have hge : 1 ≤ countKey (build_file_map data_dir vanilla_walk (m1 ++ mw :: m2)) k :=
    (mapContains_iff_countKey _ _).mp (by simp [mapContains, hs])
  omega

/-- C1 witness: the amended statement at a concrete base and a rank-1
overlay providing a case-variant spelling of the same key. -/
theorem c1_overlay_wins_witness :
    (∃ s, mapLookup (build_file_map "d".toList ["t/x.dds".toList]
        [(⟨"m".toList, "mm".toList, 1⟩, ["T/X.dds".toList])]) "t/x.dds".toList = some s
      ∧ s.isMod = true)
    ∧ countKey (build_file_map "d".toList ["t/x.dds".toList]
        [(⟨"m".toList, "mm".toList, 1⟩, ["T/X.dds".toList])]) "t/x.dds".toList = 1 :=
  c1_overlay_wins_amended "d".toList ["t/x.dds".toList]
    [(⟨"m".toList, "mm".toList, 1⟩, ["T/X.dds".toList])] "t/x.dds".toList
    ⟨"t/x.dds".toList, by decide, by decide⟩
    ⟨(⟨"m".toList, "mm".toList, 1⟩, ["T/X.dds".toList]), by decide,
      by decide, "T/X.dds".toList, by decide, by decide⟩

end Radium
